import Mathlib

/-!
Verification of the workflow/orchestration engine in `src/main.py`
(`WorkflowEngine` and its helpers).

The engine threads a mutable Python `dict` ("state") through a directed
graph of named nodes, invoking one registered tool per visited node and
choosing the next node by evaluating per-edge conditions against the
accumulated state.

Embedding conventions:
* Python values stored in the state dict are modelled by `Value`
  (ints, strings, booleans, lists, string-keyed dicts).
* A Python `dict` with string keys is an insertion-ordered association
  list with unique keys; `alistSet` is Python item assignment
  (`d[k] = v`: replace in place, else append) and `dictUpdate` is
  `d.update(r)` (items of `r` assigned left to right).
* Tools (`async def f(state, **params)`) are modelled as total functions
  `Dict → Dict → Except String Dict`: they receive the state and the
  node's params and either return the mapping that `execute` merges via
  `state.update(result)`, or fail with an exception message (the
  `except Exception as e` branch).  In-place mutation of the state by a
  tool is not modelled; the repository's tools only return mappings.
* Edge conditions are strings fed to Python `eval(condition, {"state": state})`.
  `Cond` is the denotation of such a string: literals, `state['k']`
  subscripts, `state.get('k', d)` calls, `<` comparisons and `and`, plus
  `Cond.malformed` for strings that raise (e.g. `SyntaxError`) when
  evaluated.  Evaluation failure kinds are collapsed into `CondErr`.
* `datetime.now().isoformat()` is modelled by a caller-supplied clock
  `now : Nat → String` sampled at an incrementing tick counter.
* Uncaught Python exceptions escaping `execute` (e.g. the `KeyError`
  from `self.nodes[current_node]`) are `ExecResult.raised`.
* The `while` loop of `execute` has no intrinsic bound, so the loop is
  given explicit fuel; `ExecResult.outOfFuel` marks a run that is still
  going after `fuel` visits (each visit of the Python loop corresponds
  to exactly one unit of fuel).
* The websocket branch of `execute` (`if websocket: try: send json
  except: pass`) is omitted: it does not affect state, log, or control
  flow (all exceptions are swallowed), which is the `websocket=None`
  path of the source.
-/

/-- A Python value as stored in the engine's state dict. -/
inductive Value where
  | int (n : Int)
  | str (s : String)
  | bool (b : Bool)
  | list (xs : List Value)
  | dict (xs : List (String × Value))

/-- A Python `dict` with string keys: insertion-ordered association list
with unique keys. -/
abbrev Dict := List (String × Value)

/-- Association-list lookup, `d[k]`/`k in d` read side (first match). -/
def alistLookup {α : Type} : List (String × α) → String → Option α
  | [], _ => none
  | p :: rest, k => if p.1 = k then some p.2 else alistLookup rest k

/-- Python dict item assignment `d[k] = v`: replace the value at the
first occurrence of `k` keeping its position, else append. -/
def alistSet {α : Type} : List (String × α) → String → α → List (String × α)
  | [], k, v => [(k, v)]
  | p :: rest, k, v => if p.1 = k then (k, v) :: rest else p :: alistSet rest k v

/-- Python `d.update(r)`: assign every item of `r` into `d`, left to right. -/
def dictUpdate (d : Dict) (r : Dict) : Dict :=
  r.foldl (fun acc p => alistSet acc p.1 p.2) d

/-- Python truthiness of a `Value` (`bool(v)`): zero, empty string, empty
list and empty dict are falsy. -/
def truthy : Value → Bool
  | .int n => n != 0
  | .str s => s ≠ ""
  | .bool b => b
  | .list xs => !xs.isEmpty
  | .dict xs => !xs.isEmpty

/-- Failure of evaluating a condition string (the exception caught by the
bare `except:` in `_evaluate_condition`); the distinct Python exception
classes are collapsed. -/
inductive CondErr where
  | keyError
  | typeError
  | syntaxError

/-- Denotation of a condition string evaluated by
`eval(condition, {"state": state})`: the expression forms the source's
conditions use, plus `malformed` for a string whose evaluation raises
before producing a value (e.g. a syntax error). -/
inductive Cond where
  | lit (v : Value)
  | stateItem (k : String)
  | stateGet (k : String) (dflt : Value)
  | lt (a b : Cond)
  | and (a b : Cond)
  | malformed

/-- Evaluate a condition expression against the state, as Python `eval`
would: subscripting a missing key raises, `<` on mismatched operand
types raises, `and` short-circuits returning an operand value. -/
def evalCond : Cond → Dict → Except CondErr Value
  | .lit v, _ => .ok v
  | .stateItem k, state =>
    match alistLookup state k with
    | some v => .ok v
    | none => .error .keyError
  | .stateGet k dflt, state => .ok ((alistLookup state k).getD dflt)
  | .lt a b, state => do
    let va ← evalCond a state
    let vb ← evalCond b state
    match va, vb with
    | .int x, .int y => .ok (.bool (decide (x < y)))
    | .str x, .str y => .ok (.bool (decide (x < y)))
    | _, _ => .error .typeError
  | .and a b, state => do
    let va ← evalCond a state
    if truthy va then evalCond b state else .ok va
  | .malformed, _ => .error .syntaxError

/-- `WorkflowEngine._evaluate_condition`.  `if not condition: return True`
maps both Python `None` and the empty condition string to `none` here.
The bare `except:` turns every evaluation failure into `False`; the
caller applies truthiness to the returned value, which is folded into
this function's `Bool` result. -/
def _evaluate_condition (condition : Option Cond) (state : Dict) : Bool :=
  match condition with
  | none => true
  | some c =>
    match evalCond c state with
    | .ok v => truthy v
    | .error _ => false

/-- `NodeConfig` (pydantic model): a node's name, tool reference and params. -/
structure NodeConfig where
  name : String
  tool : String
  params : Dict

/-- `EdgeConfig` (pydantic model): a directed, conditionally active edge. -/
structure EdgeConfig where
  from_node : String
  to_node : String
  condition : Option Cond

/-- `WorkflowEngine._build_edge_map`: group edges by `from_node`
preserving declaration order within each group. -/
def _build_edge_map (edges : List EdgeConfig) : List (String × List (String × Option Cond)) :=
  edges.foldl
    (fun edge_map edge =>
      let edge_map :=
        if (alistLookup edge_map edge.from_node).isSome then edge_map
        else edge_map ++ [(edge.from_node, [])]
      edge_map.map (fun p =>
        if p.1 = edge.from_node then (p.1, p.2 ++ [(edge.to_node, edge.condition)]) else p))
    []

/-- The dict comprehension `{node.name: node for node in nodes}` of
`WorkflowEngine.__init__`: on a duplicate name the later node overwrites
the earlier one's value while keeping the first occurrence's position. -/
def buildNodes (nodes : List NodeConfig) : List (String × NodeConfig) :=
  nodes.foldl (fun m node => alistSet m node.name node) []

/-- The engine object built by `WorkflowEngine.__init__` (the
`execution_log` attribute is threaded through `execLoop` instead of
being stored on the object). -/
structure WorkflowEngine where
  graph_id : String
  nodes : List (String × NodeConfig)
  edges : List (String × List (String × Option Cond))

/-- `WorkflowEngine.__init__(graph_id, nodes, edges)`.  Construction is
total: there is no duplicate-name check in the source. -/
def WorkflowEngine.init (graph_id : String) (nodes : List NodeConfig)
    (edges : List EdgeConfig) : WorkflowEngine :=
  { graph_id := graph_id
    nodes := buildNodes nodes
    edges := _build_edge_map edges }

/-- The inner loop of `_get_next_node`: first edge whose condition
evaluates true, in declaration order. -/
def firstTrue (edges : List (String × Option Cond)) (state : Dict) : Option String :=
  match edges with
  | [] => none
  | (next_node, condition) :: rest =>
    if _evaluate_condition condition state then some next_node
    else firstTrue rest state

/-- `WorkflowEngine._get_next_node`. -/
def _get_next_node (eng : WorkflowEngine) (current_node : String) (state : Dict) :
    Option String :=
  match alistLookup eng.edges current_node with
  | none => none
  | some l => firstTrue l state

/-- A registered tool: `(state, **params) ↦ result mapping`, or an
exception message. -/
abbrev Tool := Dict → Dict → Except String Dict

/-- The `tool_registry` global dict. -/
abbrev Registry := List (String × Tool)

/-- One entry of `self.execution_log` (a Python dict; field order below is
its key insertion order). -/
structure LogEntry where
  node : String
  timestamp : String
  iteration : Int
  status : String
  output : Option Dict := none
  error : Option String := none

/-- The log-entry dict as a `Value`, as stored by
`state['_meta']['execution_log'] = self.execution_log`. -/
def LogEntry.toValue (e : LogEntry) : Value :=
  .dict ([("node", .str e.node), ("timestamp", .str e.timestamp),
          ("iteration", .int e.iteration), ("status", .str e.status)]
    ++ (match e.output with | some o => [("output", .dict o)] | none => [])
    ++ (match e.error with | some m => [("error", .str m)] | none => []))

/-- An uncaught Python exception inside `execute` (the kinds are
collapsed to what the claims need). -/
inductive RunErr where
  | keyError (k : String)
  | typeError

/-- Outcome of the `while` loop of `execute` under explicit fuel. -/
inductive RunOut where
  | done (state : Dict) (log : List LogEntry) (clk : Nat)
  | fuelOut (current_node : String) (state : Dict) (log : List LogEntry) (clk : Nat)
  | err (e : RunErr) (log : List LogEntry) (clk : Nat)

/-- Read `state['_meta']['iterations']` and `state['_meta']['max_iterations']`
as the loop guard does, raising when `_meta` is missing, is not a dict, or
the two fields are not both ints.  (The source performs two separate
subscript chains on an unchanged state; they are collapsed into one read.) -/
def metaInts (state : Dict) : Except RunErr (Int × Int) :=
  match alistLookup state "_meta" with
  | none => .error (.keyError "_meta")
  | some (.dict m) =>
    match alistLookup m "iterations" with
    | none => .error (.keyError "iterations")
    | some (.int i) =>
      match alistLookup m "max_iterations" with
      | none => .error (.keyError "max_iterations")
      | some (.int mx) => .ok (i, mx)
      | some _ => .error .typeError
    | some _ => .error .typeError
  | some _ => .error .typeError

/-- `state['_meta']['iterations'] += 1`. -/
def metaIncr (state : Dict) : Except RunErr Dict :=
  match alistLookup state "_meta" with
  | none => .error (.keyError "_meta")
  | some (.dict m) =>
    match alistLookup m "iterations" with
    | none => .error (.keyError "iterations")
    | some (.int i) =>
      .ok (alistSet state "_meta" (.dict (alistSet m "iterations" (.int (i + 1)))))
    | some _ => .error .typeError
  | some _ => .error .typeError

/-- `state['_meta'][k] = v` (used for `end_time` and `execution_log`). -/
def metaAssign (state : Dict) (k : String) (v : Value) : Except RunErr Dict :=
  match alistLookup state "_meta" with
  | none => .error (.keyError "_meta")
  | some (.dict m) => .ok (alistSet state "_meta" (.dict (alistSet m k v)))
  | some _ => .error .typeError

/-- Lines 86–99 of `execute`: look the node's tool up in the registry and
produce the post-invocation state together with the visit's log entry
(`success` with the merged output, `error` with `state['_error']` set, or
`tool_not_found` leaving the state untouched). -/
def toolStep (reg : Registry) (node_config : NodeConfig) (current_node : String)
    (ts : String) (i : Int) (state : Dict) : Dict × LogEntry :=
  match alistLookup reg node_config.tool with
  | some tool_func =>
    match tool_func state node_config.params with
    | .ok result =>
      (dictUpdate state result,
       { node := current_node, timestamp := ts, iteration := i,
         status := "success", output := some result })
    | .error e =>
      (alistSet state "_error" (.str e),
       { node := current_node, timestamp := ts, iteration := i,
         status := "error", error := some e })
  | none =>
    (state,
     { node := current_node, timestamp := ts, iteration := i,
       status := "tool_not_found" })

/-- The `while current_node and iterations < max_iterations` loop of
`execute`, with explicit fuel (one unit per visit).  Python truthiness of
`current_node` makes both `None` and the empty string exit the loop. -/
def execLoop (eng : WorkflowEngine) (reg : Registry) (now : Nat → String) :
    Nat → Option String → Dict → List LogEntry → Nat → RunOut
  | _fuel, none, state, log, clk => .done state log clk
  | fuel, some c, state, log, clk =>
    if c = "" then .done state log clk
    else
      match metaInts state with
      | .error er => .err er log clk
      | .ok (i, mx) =>
        if i < mx then
          match fuel with
          | 0 => .fuelOut c state log clk
          | fuel' + 1 =>
            match alistLookup eng.nodes c with
            | none => .err (.keyError c) log clk
            | some node_config =>
              let r := toolStep reg node_config c (now clk) i state
              let log' := log ++ [r.2]
              match metaIncr r.1 with
              | .error er => .err er log' (clk + 1)
              | .ok state2 =>
                execLoop eng reg now fuel' (_get_next_node eng c state2) state2 log' (clk + 1)
        else .done state log clk

/-- Result of a call to `WorkflowEngine.execute`: the returned final state
paired with `self.execution_log`, an uncaught exception, or (a modelling
artefact) fuel exhaustion while the source loop would still be running. -/
inductive ExecResult where
  | result (state : Dict) (log : List LogEntry)
  | raised (e : RunErr) (log : List LogEntry)
  | outOfFuel (log : List LogEntry)

/-- Lines 111–114 of `execute`: on loop exit (either kind) stamp
`end_time` and `execution_log` into `_meta` and return the state (each
subscript assignment can itself raise if `_meta` is no longer a dict). -/
def finishRun (st : Dict) (log : List LogEntry) (clk : Nat) (now : Nat → String) : ExecResult :=
  match metaAssign st "end_time" (.str (now clk)) with
  | .error er => .raised er log
  | .ok st2 =>
    match metaAssign st2 "execution_log" (.list (log.map LogEntry.toValue)) with
    | .error er => .raised er log
    | .ok st3 => .result st3 log

/-- `WorkflowEngine.execute(initial_state)` (websocket absent): install the
`_meta` block, start at the first declared node, run the loop, then stamp
`end_time` and `execution_log` into `_meta` via `finishRun`. -/
def execute (eng : WorkflowEngine) (reg : Registry) (now : Nat → String)
    (fuel : Nat) (initial_state : Dict) : ExecResult :=
  let state := alistSet initial_state "_meta"
    (.dict [("start_time", .str (now 0)), ("iterations", .int 0),
            ("max_iterations", .int 50)])
  let current_node := (eng.nodes.head?).map (fun p => p.1)
  match execLoop eng reg now fuel current_node state [] 1 with
  | .done st log clk => finishRun st log clk now
  | .fuelOut _ _ log _ => .outOfFuel log
  | .err er log _ => .raised er log

/-- Modelled from the spec: a per-run configurable `max_iterations`
("default 50, configurable per run").  The source hardcodes
`'max_iterations': 50` inside `execute` and offers no per-run override;
this variant differs from `execute` only in the installed cap. -/
def executeWith (mx : Int) (eng : WorkflowEngine) (reg : Registry) (now : Nat → String)
    (fuel : Nat) (initial_state : Dict) : ExecResult :=
  let state := alistSet initial_state "_meta"
    (.dict [("start_time", .str (now 0)), ("iterations", .int 0),
            ("max_iterations", .int mx)])
  let current_node := (eng.nodes.head?).map (fun p => p.1)
  match execLoop eng reg now fuel current_node state [] 1 with
  | .done st log clk => finishRun st log clk now
  | .fuelOut _ _ log _ => .outOfFuel log
  | .err er log _ => .raised er log

/-- Number of node visits a run performed = length of its execution log. -/
def ExecResult.visits : ExecResult → Nat
  | .result _ log => log.length
  | .raised _ log => log.length
  | .outOfFuel log => log.length

/-- `true` iff the modelled run did not run out of fuel, i.e. the Python
call returned (or raised) within the given number of visits. -/
def ExecResult.finished : ExecResult → Bool
  | .outOfFuel _ => false
  | _ => true

/-- The key of an uncaught `KeyError`, if the run raised one. -/
def ExecResult.raisedKey : ExecResult → Option String
  | .raised (.keyError k) _ => some k
  | _ => none

/-- Look a key up in the returned final state. -/
def ExecResult.stateLookup : ExecResult → String → Option Value
  | .result s _, k => alistLookup s k
  | _, _ => none

/-- Look a key up inside the returned state's `_meta` dict. -/
def ExecResult.metaValue : ExecResult → String → Option Value
  | .result s _, k =>
    match alistLookup s "_meta" with
    | some (.dict m) => alistLookup m k
    | _ => none
  | _, _ => none

/-- The run's execution log. -/
def ExecResult.logOf : ExecResult → List LogEntry
  | .result _ log => log
  | .raised _ log => log
  | .outOfFuel log => log

/-- `RunOut` did not exhaust its fuel. -/
def RunOut.notFuelOut : RunOut → Bool
  | .fuelOut _ _ _ _ => false
  | _ => true

/-- Length of the log carried by a loop outcome. -/
def RunOut.logLen : RunOut → Nat
  | .done _ log _ => log.length
  | .fuelOut _ _ log _ => log.length
  | .err _ log _ => log.length

/-- A registry none of whose tools ever returns a mapping containing the
reserved key `_meta`. -/
def CleanRegistry (reg : Registry) : Prop :=
  ∀ p ∈ reg, ∀ s q r, p.2 s q = Except.ok r → alistLookup r "_meta" = none

/-- The last node in `nodes` carrying the given name, if any: the value
the `{node.name: node for node in nodes}` comprehension keeps. -/
def lastNamed : List NodeConfig → String → Option NodeConfig
  | [], _ => none
  | n :: rest, nm =>
    match lastNamed rest nm with
    | some r => some r
    | none => if n.name = nm then some n else none

/-- A fixed clock for concrete runs (timestamp strings are irrelevant to
the properties checked on them). -/
def cnow : Nat → String := fun _ => ""

/-- Engine with a single node whose sole outgoing edge targets the
nonexistent node `ghost`. -/
def C2eng : WorkflowEngine :=
  WorkflowEngine.init "g" [{ name := "a", tool := "t", params := [] }]
    [{ from_node := "a", to_node := "ghost", condition := none }]

/-- First of two node definitions sharing the name `dup`. -/
def C3n1 : NodeConfig := { name := "dup", tool := "t1", params := [] }

/-- Second of two node definitions sharing the name `dup`. -/
def C3n2 : NodeConfig := { name := "dup", tool := "t2", params := [] }

/-- A tool whose returned mapping contains the reserved key `_meta`,
resetting the iteration counter on every visit. -/
def C1tool : Tool := fun _ _ =>
  .ok [("_meta", Value.dict
    [("start_time", Value.str ""), ("iterations", Value.int 0),
     ("max_iterations", Value.int 50)])]

/-- Single node `a` with an unconditional self-loop edge. -/
def C1eng : WorkflowEngine :=
  WorkflowEngine.init "g" [{ name := "a", tool := "t", params := [] }]
    [{ from_node := "a", to_node := "a", condition := none }]

/-- A tool whose returned mapping contains the reserved key `_meta` with
`max_iterations` raised to 1000. -/
def C4tool : Tool := fun _ _ =>
  .ok [("_meta", Value.dict
    [("start_time", Value.str "x"), ("iterations", Value.int 0),
     ("max_iterations", Value.int 1000)])]

/-- Single node `a` bound to `C4tool`, no edges. -/
def C4eng : WorkflowEngine :=
  WorkflowEngine.init "g" [{ name := "a", tool := "t", params := [] }] []

/-- A well-behaved tool (returns a fresh user key only). -/
def C4witTool : Tool := fun _ _ => .ok [("x", Value.int 1)]

/-- Node `a` with three outgoing edges whose first two conditions are
literally true and whose third is unconditional. -/
def C6eng : WorkflowEngine :=
  WorkflowEngine.init "g" []
    [{ from_node := "a", to_node := "b", condition := some (.lit (.bool true)) },
     { from_node := "a", to_node := "c", condition := some (.lit (.bool true)) },
     { from_node := "a", to_node := "d", condition := none }]

/-- Engine for the tool-not-found witness: node `a` references tool `t`,
which is never registered. -/
def C7weng : WorkflowEngine :=
  WorkflowEngine.init "g" [{ name := "a", tool := "t", params := [] }]
    [{ from_node := "a", to_node := "a", condition := none }]

/-- A state carrying only the freshly installed `_meta` block. -/
def C7wstate : Dict :=
  [("_meta", Value.dict
    [("start_time", Value.str ""), ("iterations", Value.int 0),
     ("max_iterations", Value.int 50)])]

/-- A tool that always fails with message `boom`. -/
def C8tool : Tool := fun _ _ => .error "boom"

/-- The code-review improvement tool of the self-loop scenario: add 30 to
the integer under `score`. -/
def C9tool : Tool := fun s _ =>
  match alistLookup s "score" with
  | some (.int x) => .ok [("score", .int (x + 30))]
  | _ => .error "no score"

/-- Single node `n` bound to `inc`, with a self-loop edge conditioned on
`state['score'] < 70`. -/
def C9eng : WorkflowEngine :=
  WorkflowEngine.init "g" [{ name := "n", tool := "inc", params := [] }]
    [{ from_node := "n", to_node := "n",
       condition := some (.lt (.stateItem "score") (.lit (.int 70))) }]

/-! ### Dictionary lemmas -/

theorem alistLookup_set_self {α : Type} (l : List (String × α)) (k : String) (v : α) :
    alistLookup (alistSet l k v) k = some v := by
  induction l with
  | nil => simp [alistSet, alistLookup]
  | cons p rest ih =>
    by_cases h : p.1 = k
    · simp [alistSet, h, alistLookup]
    · simp [alistSet, h, alistLookup, ih]

theorem alistLookup_set_ne {α : Type} (l : List (String × α)) (k k' : String) (v : α)
    (h : k' ≠ k) : alistLookup (alistSet l k v) k' = alistLookup l k' := by
  have hk : ¬ (k = k') := fun hh => h hh.symm
  induction l with
  | nil => simp [alistSet, alistLookup, hk]
  | cons p rest ih =>
    simp only [alistSet]
    by_cases hp : p.1 = k
    · simp [hp, alistLookup, hk]
    · simp only [hp, if_false, alistLookup, ih]

theorem alistSet_set_self {α : Type} (l : List (String × α)) (k : String) (v w : α) :
    alistSet (alistSet l k v) k w = alistSet l k w := by
  induction l with
  | nil => simp [alistSet]
  | cons p rest ih =>
    by_cases hp : p.1 = k
    · simp [alistSet, hp]
    · simp [alistSet, hp, ih]

theorem alistLookup_update_none (s r : Dict) (k : String) (h : alistLookup r k = none) :
    alistLookup (dictUpdate s r) k = alistLookup s k := by
  induction r generalizing s with
  | nil => rfl
  | cons p rest ih =>
    have hp : ¬ (p.1 = k) := by
      intro hh
      simp [alistLookup, hh] at h
    have hr : alistLookup rest k = none := by
      simpa [alistLookup, hp] using h
    have hstep : dictUpdate s (p :: rest) = dictUpdate (alistSet s p.1 p.2) rest := rfl
    rw [hstep, ih _ hr, alistLookup_set_ne _ _ _ _ (fun hh => hp hh.symm)]

theorem alistLookup_mem {α : Type} (l : List (String × α)) (k : String) (v : α)
    (h : alistLookup l k = some v) : (k, v) ∈ l := by
  induction l with
  | nil => simp [alistLookup] at h
  | cons p rest ih =>
    cases p with
    | mk a b =>
      simp only [alistLookup] at h
      by_cases hp : a = k
      · simp only [hp, if_pos rfl] at h
        cases h
        subst hp
        exact List.mem_cons_self _ _
      · simp only [hp, if_false] at h
        exact List.mem_cons_of_mem _ (ih h)

/-! ### Step lemmas about the engine -/

theorem toolStep_preserves_key (reg : Registry) (cfg : NodeConfig) (c ts : String)
    (i : Int) (state : Dict) (k : String) (hk : k ≠ "_error")
    (hok : ∀ f r, alistLookup reg cfg.tool = some f → f state cfg.params = Except.ok r →
        alistLookup r k = none) :
    alistLookup (toolStep reg cfg c ts i state).1 k = alistLookup state k := by
  cases hf : alistLookup reg cfg.tool with
  | none => simp [toolStep, hf]
  | some f =>
    cases hr : f state cfg.params with
    | ok r =>
      simp only [toolStep, hf, hr]
      exact alistLookup_update_none _ _ _ (hok f r hf hr)
    | error e =>
      simp only [toolStep, hf, hr]
      exact alistLookup_set_ne _ _ _ _ hk

theorem metaInts_ok (state : Dict) (m : Dict) (i mx : Int)
    (hm : alistLookup state "_meta" = some (Value.dict m))
    (hi : alistLookup m "iterations" = some (Value.int i))
    (hmx : alistLookup m "max_iterations" = some (Value.int mx)) :
    metaInts state = .ok (i, mx) := by
  simp [metaInts, hm, hi, hmx]

theorem metaIncr_ok (state : Dict) (m : Dict) (i : Int)
    (hm : alistLookup state "_meta" = some (Value.dict m))
    (hi : alistLookup m "iterations" = some (Value.int i)) :
    metaIncr state =
      .ok (alistSet state "_meta" (Value.dict (alistSet m "iterations" (Value.int (i + 1))))) := by
  simp [metaIncr, hm, hi]

theorem metaAssign_ok (state : Dict) (m : Dict) (k : String) (v : Value)
    (hm : alistLookup state "_meta" = some (Value.dict m)) :
    metaAssign state k v = .ok (alistSet state "_meta" (Value.dict (alistSet m k v))) := by
  simp [metaAssign, hm]

/-- Whatever the stamping outcome, `finishRun` yields a finished result
carrying the loop's log. -/
theorem finishRun_finished (st : Dict) (log : List LogEntry) (clk : Nat) (now : Nat → String) :
    (finishRun st log clk now).finished = true ∧
    (finishRun st log clk now).visits = log.length := by
  unfold finishRun
  cases metaAssign st "end_time" (Value.str (now clk)) with
  | error er => exact ⟨rfl, rfl⟩
  | ok st2 =>
    dsimp only
    cases metaAssign st2 "execution_log" (Value.list (log.map LogEntry.toValue)) with
    | error er => exact ⟨rfl, rfl⟩
    | ok st3 => exact ⟨rfl, rfl⟩

theorem execLoop_none (eng : WorkflowEngine) (reg : Registry) (now : Nat → String)
    (fuel : Nat) (state : Dict) (log : List LogEntry) (clk : Nat) :
    execLoop eng reg now fuel none state log clk = .done state log clk := by
  cases fuel <;> rfl

theorem execLoop_halt (eng : WorkflowEngine) (reg : Registry) (now : Nat → String)
    (fuel : Nat) (c : String) (state : Dict) (log : List LogEntry) (clk : Nat) (i mx : Int)
    (hc : ¬ (c = "")) (hm : metaInts state = .ok (i, mx)) (hge : ¬ (i < mx)) :
    execLoop eng reg now fuel (some c) state log clk = .done state log clk := by
  cases fuel <;> simp [execLoop, hc, hm, hge]

theorem execLoop_nodeMissing (eng : WorkflowEngine) (reg : Registry) (now : Nat → String)
    (fuel : Nat) (c : String) (state : Dict) (log : List LogEntry) (clk : Nat) (i mx : Int)
    (hc : ¬ (c = "")) (hm : metaInts state = .ok (i, mx)) (hlt : i < mx)
    (hn : alistLookup eng.nodes c = none) :
    execLoop eng reg now (fuel + 1) (some c) state log clk = .err (.keyError c) log clk := by
  simp [execLoop, hc, hm, hlt, hn]

theorem execLoop_visit (eng : WorkflowEngine) (reg : Registry) (now : Nat → String)
    (fuel : Nat) (c : String) (state : Dict) (log : List LogEntry) (clk : Nat) (i mx : Int)
    (cfg : NodeConfig) (st2 : Dict)
    (hc : ¬ (c = "")) (hm : metaInts state = .ok (i, mx)) (hlt : i < mx)
    (hn : alistLookup eng.nodes c = some cfg)
    (hincr : metaIncr (toolStep reg cfg c (now clk) i state).1 = .ok st2) :
    execLoop eng reg now (fuel + 1) (some c) state log clk =
      execLoop eng reg now fuel (_get_next_node eng c st2) st2
        (log ++ [(toolStep reg cfg c (now clk) i state).2]) (clk + 1) := by
  simp [execLoop, hc, hm, hlt, hn, hincr]

theorem execLoop_fuelZero (eng : WorkflowEngine) (reg : Registry) (now : Nat → String)
    (c : String) (state : Dict) (log : List LogEntry) (clk : Nat) (i mx : Int)
    (hc : ¬ (c = "")) (hm : metaInts state = .ok (i, mx)) (hlt : i < mx) :
    execLoop eng reg now 0 (some c) state log clk = .fuelOut c state log clk := by
  simp [execLoop, hc, hm, hlt]

/-- Under a registry whose tools never return the key `_meta`, the loop
needs no more than `max_iterations - iterations` units of fuel, and the
log grows by at most that many entries: each visit increments the
intact counter by exactly one and the guard stops the loop at the cap. -/
theorem execLoop_fuel_adequate (eng : WorkflowEngine) (reg : Registry) (now : Nat → String)
    (hreg : CleanRegistry reg) :
    ∀ (fuel : Nat) (cur : Option String) (state : Dict) (log : List LogEntry) (clk : Nat)
      (m : Dict) (i mx : Int),
      alistLookup state "_meta" = some (Value.dict m) →
      alistLookup m "iterations" = some (Value.int i) →
      alistLookup m "max_iterations" = some (Value.int mx) →
      mx - i ≤ (fuel : Int) →
      (execLoop eng reg now fuel cur state log clk).notFuelOut = true ∧
      (execLoop eng reg now fuel cur state log clk).logLen ≤ log.length + (mx - i).toNat := by
  intro fuel
  induction fuel with
  | zero =>
    intro cur state log clk m i mx hm hi hmx hfuel
    cases cur with
    | none =>
      rw [execLoop_none]
      simp [RunOut.notFuelOut, RunOut.logLen]
    | some c =>
      by_cases hc : c = ""
      · subst hc
        simp [execLoop, RunOut.notFuelOut, RunOut.logLen]
      · have hge : ¬ (i < mx) := by omega
        rw [execLoop_halt eng reg now 0 c state log clk i mx hc (metaInts_ok state m i mx hm hi hmx) hge]
        simp [RunOut.notFuelOut, RunOut.logLen]
  | succ f ih =>
    intro cur state log clk m i mx hm hi hmx hfuel
    cases cur with
    | none =>
      rw [execLoop_none]
      simp [RunOut.notFuelOut, RunOut.logLen]
    | some c =>
      by_cases hc : c = ""
      · subst hc
        simp [execLoop, RunOut.notFuelOut, RunOut.logLen]
      · have hmi := metaInts_ok state m i mx hm hi hmx
        by_cases hlt : i < mx
        · cases hn : alistLookup eng.nodes c with
          | none =>
            rw [execLoop_nodeMissing eng reg now f c state log clk i mx hc hmi hlt hn]
            simp [RunOut.notFuelOut, RunOut.logLen]
          | some cfg =>
            have hpres : alistLookup (toolStep reg cfg c (now clk) i state).1 "_meta"
                = alistLookup state "_meta" := by
              apply toolStep_preserves_key reg cfg c (now clk) i state "_meta" (by decide)
              intro f' r hf hr
              exact hreg _ (alistLookup_mem _ _ _ hf) state cfg.params r hr
            have hm' : alistLookup (toolStep reg cfg c (now clk) i state).1 "_meta"
                = some (Value.dict m) := by rw [hpres, hm]
            have hincr := metaIncr_ok (toolStep reg cfg c (now clk) i state).1 m i hm' hi
            rw [execLoop_visit eng reg now f c state log clk i mx cfg _ hc hmi hlt hn hincr]
            have h1 : alistLookup
                (alistSet (toolStep reg cfg c (now clk) i state).1 "_meta"
                  (Value.dict (alistSet m "iterations" (Value.int (i + 1))))) "_meta"
                = some (Value.dict (alistSet m "iterations" (Value.int (i + 1)))) :=
              alistLookup_set_self _ _ _
            have h2 : alistLookup (alistSet m "iterations" (Value.int (i + 1))) "iterations"
                = some (Value.int (i + 1)) := alistLookup_set_self _ _ _
            have h3 : alistLookup (alistSet m "iterations" (Value.int (i + 1))) "max_iterations"
                = some (Value.int mx) := by
              rw [alistLookup_set_ne _ _ _ _ (by decide)]
              exact hmx
            have hrec := ih
              (_get_next_node eng c
                (alistSet (toolStep reg cfg c (now clk) i state).1 "_meta"
                  (Value.dict (alistSet m "iterations" (Value.int (i + 1))))))
              (alistSet (toolStep reg cfg c (now clk) i state).1 "_meta"
                (Value.dict (alistSet m "iterations" (Value.int (i + 1)))))
              (log ++ [(toolStep reg cfg c (now clk) i state).2]) (clk + 1)
              (alistSet m "iterations" (Value.int (i + 1))) (i + 1) mx h1 h2 h3 (by
                push_cast at hfuel ⊢
                omega)
            refine ⟨hrec.1, ?_⟩
            have hlen := hrec.2
            simp only [List.length_append, List.length_cons, List.length_nil] at hlen
            omega
        · rw [execLoop_halt eng reg now (f + 1) c state log clk i mx hc hmi hlt]
          simp [RunOut.notFuelOut, RunOut.logLen]

/-- If every condition in `l1` evaluates false, the scan continues past it. -/
theorem firstTrue_append_false (l1 l2 : List (String × Option Cond)) (state : Dict)
    (h : ∀ p ∈ l1, _evaluate_condition p.2 state = false) :
    firstTrue (l1 ++ l2) state = firstTrue l2 state := by
  induction l1 with
  | nil => rfl
  | cons p rest ih =>
    cases p with
    | mk nn cond =>
      have hp : _evaluate_condition cond state = false := h (nn, cond) (List.mem_cons_self _ _)
      simp only [List.cons_append, firstTrue, hp, Bool.false_eq_true, if_false]
      exact ih (fun q hq => h q (List.mem_cons_of_mem _ hq))

/-- If every condition in `l` evaluates false, no edge is selected. -/
theorem firstTrue_all_false (l : List (String × Option Cond)) (state : Dict)
    (h : ∀ p ∈ l, _evaluate_condition p.2 state = false) :
    firstTrue l state = none := by
  have := firstTrue_append_false l [] state h
  simpa using this

/-- Folding Python-dict assignments of the nodes over an accumulator:
lookup returns the last node declared with the name, else falls back to
the accumulator. -/
theorem buildNodes_foldl (ns : List NodeConfig) (acc : List (String × NodeConfig)) (nm : String) :
    alistLookup (ns.foldl (fun m node => alistSet m node.name node) acc) nm =
      (match lastNamed ns nm with
       | some v => some v
       | none => alistLookup acc nm) := by
  induction ns generalizing acc with
  | nil => rfl
  | cons n rest ih =>
    simp only [List.foldl, lastNamed]
    rw [ih]
    cases h : lastNamed rest nm with
    | some r => rfl
    | none =>
      by_cases hn : n.name = nm
      · subst hn
        simp [alistLookup_set_self]
      · simp [hn, alistLookup_set_ne _ _ _ _ (fun hh => hn hh.symm)]

/-! ### Claim theorems -/

/-- C1 (counterexample): with the registered tool `C1tool`, whose returned
mapping contains the reserved key `_meta` and resets the iteration
counter, the self-loop run `C1eng` is still running after 51 node visits:
`execute` does not terminate within `max_iterations = 50` visits, so the
claim as stated (for every set of registered tools) is false. -/
theorem C1_cex :
    (execute C1eng [("t", C1tool)] cnow 51 []).finished = false ∧
    (execute C1eng [("t", C1tool)] cnow 51 []).visits = 51 := ⟨rfl, rfl⟩

/-- C1 (amended): if no registered tool ever returns a mapping containing
the key `_meta` (so the engine-reserved metadata block stays intact),
then `execute` terminates within `max_iterations = 50` node visits: with
at least 50 units of fuel the run finishes (returns or raises) and its
execution log has at most 50 entries. -/
theorem C1_thm (eng : WorkflowEngine) (reg : Registry) (now : Nat → String)
    (fuel : Nat) (init : Dict) (hreg : CleanRegistry reg) (hfuel : 50 ≤ fuel) :
    (execute eng reg now fuel init).finished = true ∧
    (execute eng reg now fuel init).visits ≤ 50 := by
  have h := execLoop_fuel_adequate eng reg now hreg fuel
    ((eng.nodes.head?).map (fun p => p.1))
    (alistSet init "_meta" (Value.dict
      [("start_time", Value.str (now 0)), ("iterations", Value.int 0),
       ("max_iterations", Value.int 50)]))
    [] 1
    [("start_time", Value.str (now 0)), ("iterations", Value.int 0),
     ("max_iterations", Value.int 50)]
    0 50 (alistLookup_set_self _ _ _) rfl rfl (by push_cast; omega)
  simp only [execute]
  cases hres : execLoop eng reg now fuel ((eng.nodes.head?).map (fun p => p.1))
      (alistSet init "_meta" (Value.dict
        [("start_time", Value.str (now 0)), ("iterations", Value.int 0),
         ("max_iterations", Value.int 50)]))
      [] 1 with
  | done st log clk =>
    rw [hres] at h
    simp only [RunOut.notFuelOut, RunOut.logLen, List.length_nil, Nat.zero_add] at h
    refine ⟨(finishRun_finished st log clk now).1, ?_⟩
    show (finishRun st log clk now).visits ≤ 50
    rw [(finishRun_finished st log clk now).2]
    omega
  | fuelOut c st log clk =>
    rw [hres] at h
    simp [RunOut.notFuelOut] at h
  | err er log clk =>
    rw [hres] at h
    simp only [RunOut.notFuelOut, RunOut.logLen, List.length_nil, Nat.zero_add] at h
    refine ⟨rfl, ?_⟩
    show (ExecResult.raised er log).visits ≤ 50
    simp only [ExecResult.visits]
    omega

/-- C1 (witness): the amended theorem applied to a concrete engine, an
empty registry (vacuously clean) and exactly 50 units of fuel. -/
theorem C1_wit :
    (execute C1eng [] cnow 50 []).finished = true ∧
    (execute C1eng [] cnow 50 []).visits ≤ 50 :=
  C1_thm C1eng [] cnow 50 []
    (fun p hp => absurd hp (List.not_mem_nil p)) (Nat.le_refl 50)

/-- C2 (counterexample): running `C2eng` (whose only edge targets the
nonexistent node `ghost`) raises an uncaught `KeyError` for `ghost` after
one visit — `self.nodes[current_node]` has no membership guard — instead
of completing gracefully as the claim states. -/
theorem C2_cex :
    (execute C2eng [] cnow 50 []).raisedKey = some "ghost" ∧
    (execute C2eng [] cnow 50 []).visits = 1 := ⟨rfl, rfl⟩

/-- C2 (amended): if next-node selection yields a nonempty node name not
present in the graph's node map while the iteration guard still holds,
the next loop iteration faults with a `KeyError` on that name (the run
does not transition to `Completed`); the loop's log and state are dropped
by the raise exactly as in the source. -/
theorem C2_thm (eng : WorkflowEngine) (reg : Registry) (now : Nat → String)
    (fuel : Nat) (c : String) (state : Dict) (log : List LogEntry) (clk : Nat)
    (m : Dict) (i mx : Int)
    (hc : c ≠ "")
    (hnode : alistLookup eng.nodes c = none)
    (hm : alistLookup state "_meta" = some (Value.dict m))
    (hi : alistLookup m "iterations" = some (Value.int i))
    (hmx : alistLookup m "max_iterations" = some (Value.int mx))
    (hlt : i < mx) :
    execLoop eng reg now (fuel + 1) (some c) state log clk =
      .err (.keyError c) log clk :=
  execLoop_nodeMissing eng reg now fuel c state log clk i mx hc
    (metaInts_ok state m i mx hm hi hmx) hlt hnode

/-- C2 (witness): the amended theorem at the concrete dangling target
`ghost` of `C2eng`. -/
theorem C2_wit :
    execLoop C2eng [] cnow 1 (some "ghost") C7wstate [] 1 =
      .err (.keyError "ghost") [] 1 :=
  C2_thm C2eng [] cnow 0 "ghost" C7wstate [] 1
    [("start_time", Value.str ""), ("iterations", Value.int 0),
     ("max_iterations", Value.int 50)]
    0 50 (by decide) rfl rfl rfl rfl (by decide)

/-- C3 (counterexample): constructing an engine from two nodes that share
the name `dup` does not fail — there is no `DuplicateNodeNameError`
anywhere in the source — the node map silently keeps the later
definition, and a run on this graph is started and completes with one
logged visit. -/
theorem C3_cex :
    (WorkflowEngine.init "g" [C3n1, C3n2] []).nodes = [("dup", C3n2)] ∧
    (execute (WorkflowEngine.init "g" [C3n1, C3n2] []) [] cnow 50 []).visits = 1 ∧
    (execute (WorkflowEngine.init "g" [C3n1, C3n2] []) [] cnow 50 []).finished = true :=
  ⟨rfl, rfl, rfl⟩

/-- C3 (amended): graph construction never fails on duplicate node names;
the `{node.name: node}` comprehension keeps, for every name, the last
node declared with it (at the first occurrence's position), and runs are
started on such graphs normally. -/
theorem C3_thm (gid : String) (ns : List NodeConfig) (es : List EdgeConfig) (nm : String) :
    alistLookup (WorkflowEngine.init gid ns es).nodes nm = lastNamed ns nm := by
  have h := buildNodes_foldl ns [] nm
  simp only [WorkflowEngine.init, buildNodes] at h ⊢
  rw [h]
  cases lastNamed ns nm <;> rfl

/-- C4 (counterexample): with `C4tool` registered, whose returned mapping
carries the colliding reserved key `_meta`, one visit overwrites the
engine-reserved metadata: `max_iterations` in the final state is 1000,
no longer the 50 the engine installed — the reserved keys are not
protected from tool output. -/
theorem C4_cex :
    (execute C4eng [("t", C4tool)] cnow 50 []).metaValue "max_iterations"
      = some (Value.int 1000) ∧
    (execute C4eng [("t", C4tool)] cnow 50 []).metaValue "max_iterations"
      ≠ some (Value.int 50) := by
  refine ⟨rfl, ?_⟩
  intro h
  have h' : Value.int 1000 = Value.int 50 := by
    injection (show some (Value.int 1000) = some (Value.int 50) from h)
  injection h' with h2
  omega

/-- C4 (amended): the engine-reserved metadata lives under the single
state key `_meta`, and the shallow merge `state.update(result)` of a
visit leaves it intact if and only if the tool's returned mapping does
not itself contain the key `_meta`: under that proviso (and in the
`error` and `tool_not_found` branches unconditionally) the metadata after
the tool step equals the metadata before it. -/
theorem C4_thm (reg : Registry) (cfg : NodeConfig) (c ts : String) (i : Int) (state : Dict)
    (hok : ∀ f r, alistLookup reg cfg.tool = some f → f state cfg.params = Except.ok r →
        alistLookup r "_meta" = none) :
    alistLookup (toolStep reg cfg c ts i state).1 "_meta" = alistLookup state "_meta" :=
  toolStep_preserves_key reg cfg c ts i state "_meta" (by decide) hok

/-- C4 (witness): the amended theorem at a concrete visit whose tool
returns only the fresh key `x`. -/
theorem C4_wit :
    alistLookup (toolStep [("t", C4witTool)]
        { name := "a", tool := "t", params := [] } "a" "" 0 []).1 "_meta"
      = alistLookup ([] : Dict) "_meta" :=
  C4_thm [("t", C4witTool)] { name := "a", tool := "t", params := [] } "a" "" 0 []
    (by
      intro f r hf hr
      injection (show some C4witTool = some f from hf) with h1
      subst h1
      injection (show Except.ok [("x", Value.int 1)] = Except.ok r from hr) with h2
      subst h2
      rfl)

/-- C5: `_evaluate_condition` returns `True` when the edge's condition is
absent, and returns `False` whenever evaluation of a present condition
fails (malformed expression, missing key, type error); being a total
function into `Bool`, it never propagates the failure to the caller. -/
theorem C5_thm (state : Dict) :
    _evaluate_condition none state = true ∧
    ∀ (c : Cond) (e : CondErr), evalCond c state = Except.error e →
      _evaluate_condition (some c) state = false := by
  refine ⟨rfl, ?_⟩
  intro c e h
  simp [_evaluate_condition, h]

/-- C5 (witness): the empty state with an absent condition, a missing-key
subscript, a type-error comparison and a malformed expression. -/
theorem C5_wit :
    _evaluate_condition none [] = true ∧
    _evaluate_condition (some (Cond.stateItem "missing")) [] = false ∧
    _evaluate_condition (some (Cond.lt (Cond.lit (Value.int 1)) (Cond.lit (Value.str "a")))) [] = false ∧
    _evaluate_condition (some Cond.malformed) [] = false :=
  ⟨(C5_thm []).1,
   (C5_thm []).2 (Cond.stateItem "missing") CondErr.keyError rfl,
   (C5_thm []).2 (Cond.lt (Cond.lit (Value.int 1)) (Cond.lit (Value.str "a"))) CondErr.typeError rfl,
   (C5_thm []).2 Cond.malformed CondErr.syntaxError rfl⟩

/-- C9 (counterexample): the spec's self-loop scenario — one node whose
tool adds 30 to `score`, a self-loop conditioned on `score < 70`,
`max_iterations = 3` (only expressible through the spec-modelled
`executeWith`; the source hardcodes 50), initial `score = 50` — halts
after exactly 1 visit, not 3: after the first merge `score = 80` and the
condition is already false. -/
theorem C9_cex :
    (executeWith 3 C9eng [("inc", C9tool)] cnow 50 [("score", Value.int 50)]).visits = 1 ∧
    (1 : Nat) ≠ 3 := ⟨rfl, by decide⟩

/-- C9 (amended): the scenario halts after exactly one loop iteration of
node `n` — under the spec-modelled cap of 3 and equally under the
source's hardcoded cap of 50 — with a log of exactly one successful
entry for `n` and final `score = 80`; the iteration cap never binds. -/
theorem C9_thm :
    (executeWith 3 C9eng [("inc", C9tool)] cnow 50 [("score", Value.int 50)]).visits = 1 ∧
    (executeWith 3 C9eng [("inc", C9tool)] cnow 50 [("score", Value.int 50)]).finished = true ∧
    ((executeWith 3 C9eng [("inc", C9tool)] cnow 50 [("score", Value.int 50)]).logOf.map
      (fun e => e.node)) = ["n"] ∧
    ((executeWith 3 C9eng [("inc", C9tool)] cnow 50 [("score", Value.int 50)]).logOf.map
      (fun e => e.status)) = ["success"] ∧
    (executeWith 3 C9eng [("inc", C9tool)] cnow 50 [("score", Value.int 50)]).stateLookup "score"
      = some (Value.int 80) ∧
    (execute C9eng [("inc", C9tool)] cnow 50 [("score", Value.int 50)]).visits = 1 ∧
    (execute C9eng [("inc", C9tool)] cnow 50 [("score", Value.int 50)]).finished = true :=
  ⟨rfl, rfl, rfl, rfl, rfl, rfl, rfl⟩

/-- C6: next-node selection scans the current node's outgoing edges in
declaration order and returns the target of the first edge whose
condition evaluates true (so with several true conditions the first
declared edge wins); when no edge's condition is true — including a node
with zero outgoing edges, which has no entry in the edge map — no node is
selected, and the loop then exits into the completed path. -/
theorem C6_thm (eng : WorkflowEngine) (reg : Registry) (now : Nat → String)
    (c : String) (state : Dict) (l1 l2 : List (String × Option Cond))
    (t : String) (cond : Option Cond) (fuel : Nat) (log : List LogEntry) (clk : Nat)
    (hedges : alistLookup eng.edges c = some (l1 ++ (t, cond) :: l2))
    (hfalse : ∀ p ∈ l1, _evaluate_condition p.2 state = false)
    (htrue : _evaluate_condition cond state = true) :
    _get_next_node eng c state = some t ∧
    (∀ (c' : String) (state' : Dict) (l' : List (String × Option Cond)),
      alistLookup eng.edges c' = some l' →
      (∀ p ∈ l', _evaluate_condition p.2 state' = false) →
      _get_next_node eng c' state' = none) ∧
    (∀ (c'' : String) (state'' : Dict), alistLookup eng.edges c'' = none →
      _get_next_node eng c'' state'' = none) ∧
    execLoop eng reg now fuel none state log clk = RunOut.done state log clk := by
  refine ⟨?_, ?_, ?_, execLoop_none eng reg now fuel state log clk⟩
  · simp only [_get_next_node, hedges]
    rw [firstTrue_append_false l1 _ state hfalse]
    simp [firstTrue, htrue]
  · intro c' state' l' h1 h2
    simp only [_get_next_node, h1]
    exact firstTrue_all_false l' state' h2
  · intro c'' state'' h1
    simp [_get_next_node, h1]

/-- C6 (witness): on `C6eng`, whose node `a` has three outgoing edges with
the first two conditions true, the first declared target `b` is chosen. -/
theorem C6_wit : _get_next_node C6eng "a" [] = some "b" :=
  (C6_thm C6eng [] cnow "a" [] []
    [("c", some (.lit (.bool true))), ("d", none)] "b" (some (.lit (.bool true)))
    0 [] 0 rfl (fun p hp => absurd hp (List.not_mem_nil p)) rfl).1

/-- C7: visiting a node whose tool has no registered binding appends a log
entry with status `tool_not_found`, leaves the state untouched except for
the iteration-count increment the per-iteration algorithm itself performs
(every key other than `_meta` reads the same), and proceeds to next-node
selection against that state. -/
theorem C7_thm (eng : WorkflowEngine) (reg : Registry) (now : Nat → String)
    (fuel : Nat) (c : String) (state : Dict) (log : List LogEntry) (clk : Nat)
    (cfg : NodeConfig) (m : Dict) (i mx : Int)
    (hc : c ≠ "")
    (hnode : alistLookup eng.nodes c = some cfg)
    (htool : alistLookup reg cfg.tool = none)
    (hm : alistLookup state "_meta" = some (Value.dict m))
    (hi : alistLookup m "iterations" = some (Value.int i))
    (hmx : alistLookup m "max_iterations" = some (Value.int mx))
    (hlt : i < mx) :
    execLoop eng reg now (fuel + 1) (some c) state log clk =
      execLoop eng reg now fuel
        (_get_next_node eng c
          (alistSet state "_meta" (Value.dict (alistSet m "iterations" (Value.int (i + 1))))))
        (alistSet state "_meta" (Value.dict (alistSet m "iterations" (Value.int (i + 1)))))
        (log ++ [{ node := c, timestamp := now clk, iteration := i,
                   status := "tool_not_found" }])
        (clk + 1) ∧
    (∀ k, k ≠ "_meta" →
      alistLookup (alistSet state "_meta"
        (Value.dict (alistSet m "iterations" (Value.int (i + 1))))) k = alistLookup state k) := by
  have htools : toolStep reg cfg c (now clk) i state =
      (state, { node := c, timestamp := now clk, iteration := i,
                status := "tool_not_found" }) := by
    simp [toolStep, htool]
  have hincr : metaIncr (toolStep reg cfg c (now clk) i state).1 =
      .ok (alistSet state "_meta" (Value.dict (alistSet m "iterations" (Value.int (i + 1))))) := by
    rw [htools]
    exact metaIncr_ok state m i hm hi
  constructor
  · rw [execLoop_visit eng reg now fuel c state log clk i mx cfg _ hc
      (metaInts_ok state m i mx hm hi hmx) hlt hnode hincr, htools]
  · intro k hk
    exact alistLookup_set_ne state "_meta" k _ hk

/-- C7 (witness): a visit of node `a` of `C7weng` under the empty registry
takes the `tool_not_found` path and leaves the user key `score` reading
unchanged. -/
theorem C7_wit :
    execLoop C7weng [] cnow 1 (some "a") C7wstate [] 1 =
      execLoop C7weng [] cnow 0
        (_get_next_node C7weng "a"
          (alistSet C7wstate "_meta" (Value.dict (alistSet
            [("start_time", Value.str ""), ("iterations", Value.int 0),
             ("max_iterations", Value.int 50)] "iterations" (Value.int (0 + 1))))))
        (alistSet C7wstate "_meta" (Value.dict (alistSet
          [("start_time", Value.str ""), ("iterations", Value.int 0),
           ("max_iterations", Value.int 50)] "iterations" (Value.int (0 + 1)))))
        ([] ++ [{ node := "a", timestamp := "", iteration := 0,
                  status := "tool_not_found" }]) 2 ∧
    alistLookup (alistSet C7wstate "_meta" (Value.dict (alistSet
        [("start_time", Value.str ""), ("iterations", Value.int 0),
         ("max_iterations", Value.int 50)] "iterations" (Value.int (0 + 1))))) "score"
      = alistLookup C7wstate "score" :=
  have h := C7_thm C7weng [] cnow 0 "a" C7wstate [] 1
    { name := "a", tool := "t", params := [] }
    [("start_time", Value.str ""), ("iterations", Value.int 0),
     ("max_iterations", Value.int 50)]
    0 50 (by decide) rfl rfl rfl rfl rfl (by decide)
  ⟨h.1, h.2 "score" (by decide)⟩

/-- C8: when the bound tool fails, the engine does not raise past the run
boundary: it writes the message to the state's error field (`_error`, the
spec's `last_error`), appends a log entry with status `error` carrying the
message, and continues to next-node selection with the incremented
iteration counter. -/
theorem C8_thm (eng : WorkflowEngine) (reg : Registry) (now : Nat → String)
    (fuel : Nat) (c : String) (state : Dict) (log : List LogEntry) (clk : Nat)
    (cfg : NodeConfig) (f : Tool) (msg : String) (m : Dict) (i mx : Int)
    (hc : c ≠ "")
    (hnode : alistLookup eng.nodes c = some cfg)
    (htool : alistLookup reg cfg.tool = some f)
    (hfail : f state cfg.params = Except.error msg)
    (hm : alistLookup state "_meta" = some (Value.dict m))
    (hi : alistLookup m "iterations" = some (Value.int i))
    (hmx : alistLookup m "max_iterations" = some (Value.int mx))
    (hlt : i < mx) :
    execLoop eng reg now (fuel + 1) (some c) state log clk =
      execLoop eng reg now fuel
        (_get_next_node eng c (alistSet (alistSet state "_error" (Value.str msg)) "_meta"
          (Value.dict (alistSet m "iterations" (Value.int (i + 1))))))
        (alistSet (alistSet state "_error" (Value.str msg)) "_meta"
          (Value.dict (alistSet m "iterations" (Value.int (i + 1)))))
        (log ++ [{ node := c, timestamp := now clk, iteration := i,
                   status := "error", error := some msg }])
        (clk + 1) ∧
    alistLookup (alistSet (alistSet state "_error" (Value.str msg)) "_meta"
        (Value.dict (alistSet m "iterations" (Value.int (i + 1))))) "_error"
      = some (Value.str msg) := by
  have htools : toolStep reg cfg c (now clk) i state =
      (alistSet state "_error" (Value.str msg),
       { node := c, timestamp := now clk, iteration := i,
         status := "error", error := some msg }) := by
    simp [toolStep, htool, hfail]
  have hm' : alistLookup (alistSet state "_error" (Value.str msg)) "_meta"
      = some (Value.dict m) := by
    rw [alistLookup_set_ne state "_error" "_meta" _ (by decide)]
    exact hm
  have hincr : metaIncr (toolStep reg cfg c (now clk) i state).1 =
      .ok (alistSet (alistSet state "_error" (Value.str msg)) "_meta"
        (Value.dict (alistSet m "iterations" (Value.int (i + 1))))) := by
    rw [htools]
    exact metaIncr_ok _ m i hm' hi
  constructor
  · rw [execLoop_visit eng reg now fuel c state log clk i mx cfg _ hc
      (metaInts_ok state m i mx hm hi hmx) hlt hnode hincr, htools]
  · rw [alistLookup_set_ne _ "_meta" "_error" _ (by decide)]
    exact alistLookup_set_self state "_error" (Value.str msg)

/-- C8 (witness): a visit of node `a` of `C7weng` with the always-failing
`C8tool` registered takes the `error` path, records `boom` under `_error`
and continues. -/
theorem C8_wit :
    execLoop C7weng [("t", C8tool)] cnow 1 (some "a") C7wstate [] 1 =
      execLoop C7weng [("t", C8tool)] cnow 0
        (_get_next_node C7weng "a"
          (alistSet (alistSet C7wstate "_error" (Value.str "boom")) "_meta"
            (Value.dict (alistSet
              [("start_time", Value.str ""), ("iterations", Value.int 0),
               ("max_iterations", Value.int 50)] "iterations" (Value.int (0 + 1))))))
        (alistSet (alistSet C7wstate "_error" (Value.str "boom")) "_meta"
          (Value.dict (alistSet
            [("start_time", Value.str ""), ("iterations", Value.int 0),
             ("max_iterations", Value.int 50)] "iterations" (Value.int (0 + 1)))))
        ([] ++ [{ node := "a", timestamp := "", iteration := 0,
                  status := "error", error := some "boom" }]) 2 ∧
    alistLookup (alistSet (alistSet C7wstate "_error" (Value.str "boom")) "_meta"
        (Value.dict (alistSet
          [("start_time", Value.str ""), ("iterations", Value.int 0),
           ("max_iterations", Value.int 50)] "iterations" (Value.int (0 + 1))))) "_error"
      = some (Value.str "boom") :=
  C8_thm C7weng [("t", C8tool)] cnow 0 "a" C7wstate [] 1
    { name := "a", tool := "t", params := [] } C8tool "boom"
    [("start_time", Value.str ""), ("iterations", Value.int 0),
     ("max_iterations", Value.int 50)]
    0 50 (by decide) rfl rfl rfl rfl rfl rfl (by decide)

/-- C10: executing a graph with zero nodes terminates immediately without
visiting any node and without error, returning the initial state extended
with a `_meta` block holding `start_time`, an iteration count of 0, the
cap of 50, `end_time`, and an empty execution log, alongside an empty log
sequence. -/
theorem C10_thm (gid : String) (edges : List EdgeConfig) (reg : Registry)
    (now : Nat → String) (fuel : Nat) (init : Dict) :
    execute (WorkflowEngine.init gid [] edges) reg now fuel init =
      ExecResult.result
        (alistSet init "_meta" (Value.dict
          [("start_time", Value.str (now 0)), ("iterations", Value.int 0),
           ("max_iterations", Value.int 50), ("end_time", Value.str (now 1)),
           ("execution_log", Value.list [])])) [] := by
  have hhead : ((WorkflowEngine.init gid [] edges).nodes.head?).map
      (fun p => p.1) = (none : Option String) := rfl
  simp only [execute, hhead]
  rw [execLoop_none]
  dsimp only
  have h1 : alistLookup (alistSet init "_meta" (Value.dict
      [("start_time", Value.str (now 0)), ("iterations", Value.int 0),
       ("max_iterations", Value.int 50)])) "_meta" = some (Value.dict
      [("start_time", Value.str (now 0)), ("iterations", Value.int 0),
       ("max_iterations", Value.int 50)]) := alistLookup_set_self _ _ _
  unfold finishRun
  rw [metaAssign_ok _ _ "end_time" (Value.str (now 1)) h1]
  dsimp only
  rw [metaAssign_ok _ _ "execution_log"
    (Value.list (List.map LogEntry.toValue [])) (alistLookup_set_self _ _ _)]
  dsimp only
  rw [alistSet_set_self, alistSet_set_self]
  rfl
